import Mathlib

/-!
Ownership holders of `chapters/memory-safety/code` and `convert<int, std::string>`.

A shallow embedding of

* `SharedPtr<T>` (`sharedptr.h`) and `UniquePtr<T>` (`uniqueptr.h`) with `T = int`,
  together with the driver `main.cpp`;
* the specialisation `convert<int, std::string>` of `chapters/ftemplates/code/convert.cpp`.

Memory is explicit.  An address is an index into a list of cells, `new` appends a
cell (addresses are never handed out twice) and `delete` marks the cell freed.
A holder object is identified by its index in the list of holder objects, which
plays the role of its address (`this`).  Running a destructor leaves the object's
storage in place, as the explicit calls `p.~SharedPtr()` of `main.cpp` do.
Every step that has undefined behaviour in C++ returns a `Fault`.
-/

namespace MemorySafety

/-- Largest value of `int` (32 bit). -/
def INT_MAX : Int := 2147483647

/-- Smallest value of `int` (32 bit). -/
def INT_MIN : Int := -2147483648

/-- The ways a step can leave defined behaviour. -/
inductive Fault where
  /-- indirection through `nullptr` -/
  | NullDereference
  /-- indirection through a pointer to freed or never allocated storage -/
  | InvalidAccess
  /-- `delete` of storage that is already freed -/
  | DoubleRelease
  /-- signed overflow of an `int` -/
  | Overflow
  /-- the holder object named by the caller does not exist -/
  | NoSuchHolder
  deriving DecidableEq, Repr

deriving instance DecidableEq for Except

/-- One `int` in the free store: the value last stored and whether it was deleted. -/
structure Cell where
  val : Int
  freed : Bool
  deriving DecidableEq, Repr

/-- The fields of a `SharedPtr<int>` object; `none` is `nullptr`. -/
structure SharedPtr where
  ptr : Option Nat
  ref_cnt : Option Nat
  deriving DecidableEq, Repr

/-- Program state for the shared holder: the resources (`T` objects), the counters
(`int` objects allocated by the constructor), the holder objects, and the log of
the resources on which `delete ptr` was run, oldest first. -/
structure State where
  objs : List Cell
  cnts : List Cell
  holders : List SharedPtr
  released : List Nat
  deriving DecidableEq, Repr

/-- The state before anything is allocated. -/
def State.init : State := ⟨[], [], [], []⟩

/-- The caller's `new int(v)`: a fresh resource and its address. -/
def newObj (s : State) (v : Int) : State × Nat :=
  ({ s with objs := s.objs ++ [⟨v, false⟩] }, s.objs.length)

/-- The statement `delete ptr` on a resource; `delete` of `nullptr` does nothing. -/
def deleteObj (s : State) (ptr : Option Nat) : Except Fault State :=
  match ptr with
  | none => .ok s
  | some p =>
    match s.objs[p]? with
    | none => .error .InvalidAccess
    | some cell =>
      if cell.freed then .error .DoubleRelease
      else .ok { s with objs := s.objs.set p ⟨cell.val, true⟩, released := s.released ++ [p] }

/-- The statement `delete ref_cnt` on a counter; `delete` of `nullptr` does nothing. -/
def deleteCnt (s : State) (ref_cnt : Option Nat) : Except Fault State :=
  match ref_cnt with
  | none => .ok s
  | some c =>
    match s.cnts[c]? with
    | none => .error .InvalidAccess
    | some cell =>
      if cell.freed then .error .DoubleRelease
      else .ok { s with cnts := s.cnts.set c ⟨cell.val, true⟩ }

/-- The increment `++(*ref_cnt)`. -/
def incr (s : State) (ref_cnt : Option Nat) : Except Fault State :=
  match ref_cnt with
  | none => .error .NullDereference
  | some c =>
    match s.cnts[c]? with
    | none => .error .InvalidAccess
    | some cell =>
      if cell.freed then .error .InvalidAccess
      else if cell.val = INT_MAX then .error .Overflow
      else .ok { s with cnts := s.cnts.set c ⟨cell.val + 1, false⟩ }

/-- The decrement `--(*ref_cnt)`: the state after the store and the new value. -/
def decr (s : State) (ref_cnt : Option Nat) : Except Fault (State × Int) :=
  match ref_cnt with
  | none => .error .NullDereference
  | some c =>
    match s.cnts[c]? with
    | none => .error .InvalidAccess
    | some cell =>
      if cell.freed then .error .InvalidAccess
      else if cell.val = INT_MIN then .error .Overflow
      else .ok ({ s with cnts := s.cnts.set c ⟨cell.val - 1, false⟩ }, cell.val - 1)

/-- The member `SharedPtr::release()` run on holder object `this`. -/
def SharedPtr.release (s : State) (this : Nat) : Except Fault State :=
  match s.holders[this]? with
  | none => .error .NoSuchHolder
  | some h =>
    match h.ptr with
    | none => .ok s
    | some _ =>
      match decr s h.ref_cnt with
      | .error e => .error e
      | .ok (s1, n) =>
        if n = 0 then
          match deleteObj s1 h.ptr with
          | .error e => .error e
          | .ok s2 =>
            match deleteCnt s2 h.ref_cnt with
            | .error e => .error e
            | .ok s3 => .ok { s3 with holders := s3.holders.set this ⟨none, none⟩ }
        else .ok s1

/-- The constructor `SharedPtr(T* p = nullptr)`: the new state and the new holder
object. -/
def SharedPtr.create (s : State) (p : Option Nat) : State × Nat :=
  ({ s with
      cnts := s.cnts ++ [⟨if p = none then 0 else 1, false⟩],
      holders := s.holders ++ [⟨p, some s.cnts.length⟩] },
   s.holders.length)

/-- The copy constructor `SharedPtr(const SharedPtr& other)`: the new holder object is
the last one. -/
def SharedPtr.copy (s : State) (other : Nat) : Except Fault State :=
  match s.holders[other]? with
  | none => .error .NoSuchHolder
  | some o =>
    let s1 := { s with holders := s.holders ++ [⟨o.ptr, o.ref_cnt⟩] }
    match o.ptr with
    | none => .ok s1
    | some _ => incr s1 o.ref_cnt

/-- The destructor `~SharedPtr()`. -/
def SharedPtr.destroy (s : State) (this : Nat) : Except Fault State :=
  SharedPtr.release s this

/-- The copy assignment `SharedPtr::operator=(const SharedPtr& other)`. -/
def SharedPtr.assign (s : State) (this other : Nat) : Except Fault State :=
  if this ≠ other then
    match SharedPtr.release s this with
    | .error e => .error e
    | .ok s1 =>
      match s1.holders[other]? with
      | none => .error .NoSuchHolder
      | some o =>
        let s2 := { s1 with holders := s1.holders.set this ⟨o.ptr, o.ref_cnt⟩ }
        match o.ptr with
        | none => .ok s2
        | some _ => incr s2 o.ref_cnt
  else .ok s

/-- The member `SharedPtr::operator->()`: the stored pointer. -/
def SharedPtr.arrow (s : State) (this : Nat) : Except Fault (Option Nat) :=
  match s.holders[this]? with
  | none => .error .NoSuchHolder
  | some h => .ok h.ptr

/-- The member `SharedPtr::operator*()`: the object `*ptr`. -/
def SharedPtr.deref (s : State) (this : Nat) : Except Fault Nat :=
  match s.holders[this]? with
  | none => .error .NoSuchHolder
  | some h =>
    match h.ptr with
    | none => .error .NullDereference
    | some p =>
      match s.objs[p]? with
      | none => .error .InvalidAccess
      | some cell => if cell.freed then .error .InvalidAccess else .ok p

/-- Reading `*h`. -/
def SharedPtr.read (s : State) (this : Nat) : Except Fault Int :=
  match SharedPtr.deref s this with
  | .error e => .error e
  | .ok p =>
    match s.objs[p]? with
    | none => .error .InvalidAccess
    | some cell => .ok cell.val

/-- The assignment `*h = v`. -/
def SharedPtr.write (s : State) (this : Nat) (v : Int) : Except Fault State :=
  match SharedPtr.deref s this with
  | .error e => .error e
  | .ok p => .ok { s with objs := s.objs.set p ⟨v, false⟩ }

/-- Copy-construct once from each holder object of `srcs`, in order. -/
def copyAll (s : State) : List Nat → Except Fault State
  | [] => .ok s
  | o :: os =>
    match SharedPtr.copy s o with
    | .error e => .error e
    | .ok s1 => copyAll s1 os

/-- Run the destructor once on each holder object of `hs`, in order. -/
def destroyAll (s : State) : List Nat → Except Fault State
  | [] => .ok s
  | h :: hs =>
    match SharedPtr.destroy s h with
    | .error e => .error e
    | .ok s1 => destroyAll s1 hs

/-- The number of holder objects whose `ptr` is `p`. -/
def holdersOf (s : State) (p : Nat) : Nat :=
  (s.holders.filter (fun h => h.ptr = some p)).length

/-- The data model's invariant at one holder object `h`: when `h` is non-empty, its
counter is live and holds the number of holder objects whose `ptr` is `h`'s resource,
that resource is live, and a non-empty holder object refers to `h`'s resource exactly
when it refers to `h`'s counter. -/
def holderCounted (s : State) : SharedPtr → Prop
  | ⟨none, _⟩ => True
  | ⟨some _, none⟩ => False
  | ⟨some r, some c⟩ =>
    s.cnts[c]? = some ⟨(holdersOf s r : Int), false⟩ ∧
    s.objs[r]?.map Cell.freed = some false ∧
    ∀ g ∈ s.holders, g.ptr ≠ none → (g.ptr = some r ↔ g.ref_cnt = some c)

instance holderCounted.decide (s : State) : DecidablePred (holderCounted s)
  | ⟨none, _⟩ => inferInstanceAs (Decidable True)
  | ⟨some _, none⟩ => inferInstanceAs (Decidable False)
  | ⟨some r, some c⟩ =>
    inferInstanceAs (Decidable (
      s.cnts[c]? = some ⟨(holdersOf s r : Int), false⟩ ∧
      s.objs[r]?.map Cell.freed = some false ∧
      ∀ g ∈ s.holders, g.ptr ≠ none → (g.ptr = some r ↔ g.ref_cnt = some c)))

/-- The data model's invariant of the shared holder: every counter of a non-empty
holder object equals the number of holder objects that refer to its resource. -/
def State.counted (s : State) : Prop :=
  ∀ h ∈ s.holders, holderCounted s h

instance State.counted.decide (s : State) : Decidable s.counted :=
  inferInstanceAs (Decidable (∀ h ∈ s.holders, holderCounted s h))

/-- Lines 15 to 18 of `main.cpp`: `p` over `new int(init)`, `q { p }`, `*p = v`,
`p.~SharedPtr()`. -/
def mainFirstHalf (s : State) (init v : Int) : Except Fault State :=
  let (s1, r) := newObj s init
  let (s2, p) := SharedPtr.create s1 (some r)
  match SharedPtr.copy s2 p with
  | .error e => .error e
  | .ok s3 =>
    match SharedPtr.write s3 p v with
    | .error e => .error e
    | .ok s4 => SharedPtr.destroy s4 p

/-- Lines 20 and 21 of `main.cpp`: `*q = w`, `q.~SharedPtr()`. -/
def mainSecondHalf (s : State) (q : Nat) (w : Int) : Except Fault State :=
  match SharedPtr.write s q w with
  | .error e => .error e
  | .ok s1 => SharedPtr.destroy s1 q

/-! ### `uniqueptr.h` -/

/-- The field of a `UniquePtr<int>` object; `none` is `nullptr`. -/
structure UniquePtr where
  ptr : Option Nat
  deriving DecidableEq, Repr

/-- Program state for the exclusive holder: the resources, the holder objects, and the
log of the resources on which `delete ptr` was run, oldest first. -/
structure UState where
  objs : List Cell
  holders : List UniquePtr
  released : List Nat
  deriving DecidableEq, Repr

/-- The state before anything is allocated. -/
def UState.init : UState := ⟨[], [], []⟩

/-- The caller's `new int(v)`: a fresh resource and its address. -/
def UState.newObj (s : UState) (v : Int) : UState × Nat :=
  ({ s with objs := s.objs ++ [⟨v, false⟩] }, s.objs.length)

/-- The statement `delete ptr`; `delete` of `nullptr` does nothing. -/
def UState.deleteObj (s : UState) (ptr : Option Nat) : Except Fault UState :=
  match ptr with
  | none => .ok s
  | some p =>
    match s.objs[p]? with
    | none => .error .InvalidAccess
    | some cell =>
      if cell.freed then .error .DoubleRelease
      else .ok { s with objs := s.objs.set p ⟨cell.val, true⟩, released := s.released ++ [p] }

/-- The constructor `UniquePtr()`: the new state and the new holder object. -/
def UniquePtr.createEmpty (s : UState) : UState × Nat :=
  ({ s with holders := s.holders ++ [⟨none⟩] }, s.holders.length)

/-- The constructor `UniquePtr(T* ptr)`: the new state and the new holder object. -/
def UniquePtr.create (s : UState) (ptr : Option Nat) : UState × Nat :=
  ({ s with holders := s.holders ++ [⟨ptr⟩] }, s.holders.length)

/-- The destructor `~UniquePtr()`: `delete ptr; ptr = nullptr;`. -/
def UniquePtr.destroy (s : UState) (this : Nat) : Except Fault UState :=
  match s.holders[this]? with
  | none => .error .NoSuchHolder
  | some h =>
    match UState.deleteObj s h.ptr with
    | .error e => .error e
    | .ok s1 => .ok { s1 with holders := s1.holders.set this ⟨none⟩ }

/-- The member `UniquePtr::operator->()`: the stored pointer. -/
def UniquePtr.arrow (s : UState) (this : Nat) : Except Fault (Option Nat) :=
  match s.holders[this]? with
  | none => .error .NoSuchHolder
  | some h => .ok h.ptr

/-- The member `UniquePtr::operator*()`: the object `*ptr`. -/
def UniquePtr.deref (s : UState) (this : Nat) : Except Fault Nat :=
  match s.holders[this]? with
  | none => .error .NoSuchHolder
  | some h =>
    match h.ptr with
    | none => .error .NullDereference
    | some p =>
      match s.objs[p]? with
      | none => .error .InvalidAccess
      | some cell => if cell.freed then .error .InvalidAccess else .ok p

/-- Reading `*u`. -/
def UniquePtr.read (s : UState) (this : Nat) : Except Fault Int :=
  match UniquePtr.deref s this with
  | .error e => .error e
  | .ok p =>
    match s.objs[p]? with
    | none => .error .InvalidAccess
    | some cell => .ok cell.val

/-- The assignment `*u = v`. -/
def UniquePtr.write (s : UState) (this : Nat) (v : Int) : Except Fault UState :=
  match UniquePtr.deref s this with
  | .error e => .error e
  | .ok p => .ok { s with objs := s.objs.set p ⟨v, false⟩ }

/-- What a caller can do with exclusive holders: allocate a resource, run one of the
two constructors, dereference for reading or writing, run the destructor.  The copy
constructor and the copy assignment are deleted. -/
inductive UOp where
  | alloc (v : Int)
  | createEmpty
  | create (ptr : Option Nat)
  | read (this : Nat)
  | write (this : Nat) (v : Int)
  | destroy (this : Nat)
  deriving DecidableEq, Repr

/-- One caller step. -/
def UOp.step (s : UState) : UOp → Except Fault UState
  | .alloc v => .ok (UState.newObj s v).1
  | .createEmpty => .ok (UniquePtr.createEmpty s).1
  | .create ptr => .ok (UniquePtr.create s ptr).1
  | .read this =>
    match UniquePtr.read s this with
    | .error e => .error e
    | .ok _ => .ok s
  | .write this v => UniquePtr.write s this v
  | .destroy this => UniquePtr.destroy s this

/-- A sequence of caller steps. -/
def runOps (s : UState) : List UOp → Except Fault UState
  | [] => .ok s
  | op :: ops =>
    match UOp.step s op with
    | .error e => .error e
    | .ok s1 => runOps s1 ops

/-- The resources a sequence of steps passes to the constructor `UniquePtr(T* ptr)`. -/
def passedToCreate : List UOp → List Nat
  | [] => []
  | .create (some p) :: ops => p :: passedToCreate ops
  | _ :: ops => passedToCreate ops

/-- The state `s` extended by one live resource holding `v`, one live counter holding
`k`, and `n` holder objects that all refer to that resource and that counter. -/
def grp (s : State) (v : Int) (n : Nat) (k : Int) : State :=
  { objs := s.objs ++ [⟨v, false⟩],
    cnts := s.cnts ++ [⟨k, false⟩],
    holders := s.holders ++ List.replicate n ⟨some s.objs.length, some s.cnts.length⟩,
    released := s.released }

end MemorySafety

/-! ## `chapters/ftemplates/code/convert.cpp` -/

namespace FTemplates

/-- The character `char('0' + x % 10)`; `%` on `int` truncates towards zero. -/
def digitChar (x : Int) : Char := Char.ofNat (48 + x.tmod 10).toNat

/-- The `do ... while (x > 0)` loop of `convert<int, std::string>`: each round puts
`char('0' + x % 10)` in front of `s` and divides `x` by 10 (truncating); `fuel` bounds
the number of rounds. -/
def convertLoop : Nat → Int → List Char → Option (List Char)
  | 0, _, _ => none
  | fuel + 1, x, s =>
    let s1 := digitChar x :: s
    let x1 := x.tdiv 10
    if x1 > 0 then convertLoop fuel x1 s1 else some s1

/-- The specialisation `convert<int, std::string>(int x)`, started on the empty string. -/
def convert (x : Int) : Option String :=
  (convertLoop (x.toNat + 1) x []).map String.mk

/-- The number a string of decimal digits denotes, most significant digit first. -/
def decimalValue (s : List Char) : Nat :=
  s.foldl (fun acc c => acc * 10 + (c.toNat - 48)) 0

end FTemplates

namespace MemorySafety

/-! ## Lists as memories -/

theorem getElem?_append_add {α : Type} (l xs : List α) (k : Nat) :
    (l ++ xs)[l.length + k]? = xs[k]? := by
  rw [List.getElem?_append_right (Nat.le_add_right _ _)]
  simp

theorem set_append_add {α : Type} (l xs : List α) (k : Nat) (a : α) :
    (l ++ xs).set (l.length + k) a = l ++ xs.set k a := by
  rw [List.set_append_right _ _ (Nat.le_add_right _ _)]
  simp

theorem getElem?_append_length {α : Type} (l xs : List α) :
    (l ++ xs)[l.length]? = xs[0]? :=
  getElem?_append_add l xs 0

theorem set_append_length {α : Type} (l xs : List α) (a : α) :
    (l ++ xs).set l.length a = l ++ xs.set 0 a :=
  set_append_add l xs 0 a

theorem replicate_snoc {α : Type} (n : Nat) (a : α) :
    List.replicate n a ++ [a] = List.replicate (n + 1) a := by
  induction n with
  | zero => rfl
  | succ n ih =>
    show a :: (List.replicate n a ++ [a]) = a :: List.replicate (n + 1) a
    rw [ih]

/-! ## What each member function does on a well described state -/

theorem release_empty {s : State} {i : Nat} {rc : Option Nat}
    (hh : s.holders[i]? = some ⟨none, rc⟩) : SharedPtr.release s i = .ok s := by
  simp [SharedPtr.release, hh]

theorem release_shared {s : State} {i p c : Nat} {n : Int}
    (hh : s.holders[i]? = some ⟨some p, some c⟩) (hc : s.cnts[c]? = some ⟨n, false⟩)
    (hmin : n ≠ INT_MIN) (hone : n ≠ 1) :
    SharedPtr.release s i = .ok { s with cnts := s.cnts.set c ⟨n - 1, false⟩ } := by
  have h0 : ¬ n - 1 = 0 := by omega
  simp [SharedPtr.release, hh, decr, hc, hmin, h0]

theorem release_last {s : State} {i p c : Nat} {v : Int}
    (hh : s.holders[i]? = some ⟨some p, some c⟩) (hc : s.cnts[c]? = some ⟨1, false⟩)
    (ho : s.objs[p]? = some ⟨v, false⟩) :
    SharedPtr.release s i = .ok
      { objs := s.objs.set p ⟨v, true⟩, cnts := s.cnts.set c ⟨0, true⟩,
        holders := s.holders.set i ⟨none, none⟩, released := s.released ++ [p] } := by
  have hlt : c < s.cnts.length := by
    rcases List.getElem?_eq_some.1 hc with ⟨h, _⟩
    exact h
  simp [SharedPtr.release, hh, decr, hc, INT_MIN, deleteObj, ho, deleteCnt, hlt]

theorem copy_nonempty {s : State} {o p c : Nat} {n : Int}
    (hh : s.holders[o]? = some ⟨some p, some c⟩) (hc : s.cnts[c]? = some ⟨n, false⟩)
    (hmax : n ≠ INT_MAX) :
    SharedPtr.copy s o = .ok
      { s with cnts := s.cnts.set c ⟨n + 1, false⟩,
               holders := s.holders ++ [⟨some p, some c⟩] } := by
  simp [SharedPtr.copy, hh, incr, hc, hmax]

theorem copy_overflow {s : State} {o p c : Nat}
    (hh : s.holders[o]? = some ⟨some p, some c⟩) (hc : s.cnts[c]? = some ⟨INT_MAX, false⟩) :
    SharedPtr.copy s o = .error .Overflow := by
  simp [SharedPtr.copy, hh, incr, hc]

theorem write_live {s : State} {i p : Nat} {rc : Option Nat} {u v : Int}
    (hh : s.holders[i]? = some ⟨some p, rc⟩) (ho : s.objs[p]? = some ⟨u, false⟩) :
    SharedPtr.write s i v = .ok { s with objs := s.objs.set p ⟨v, false⟩ } := by
  simp [SharedPtr.write, SharedPtr.deref, hh, ho]

theorem read_live {s : State} {i p : Nat} {rc : Option Nat} {u : Int}
    (hh : s.holders[i]? = some ⟨some p, rc⟩) (ho : s.objs[p]? = some ⟨u, false⟩) :
    SharedPtr.read s i = .ok u := by
  simp [SharedPtr.read, SharedPtr.deref, hh, ho]

theorem copyAll_append (s : State) (xs ys : List Nat) :
    copyAll s (xs ++ ys) =
      match copyAll s xs with
      | .error e => .error e
      | .ok s1 => copyAll s1 ys := by
  induction xs generalizing s with
  | nil => simp [copyAll]
  | cons x xs ih =>
    simp only [List.cons_append, copyAll]
    cases h : SharedPtr.copy s x with
    | error e => simp
    | ok s1 => simp [ih]

theorem destroyAll_append (s : State) (xs ys : List Nat) :
    destroyAll s (xs ++ ys) =
      match destroyAll s xs with
      | .error e => .error e
      | .ok s1 => destroyAll s1 ys := by
  induction xs generalizing s with
  | nil => simp [destroyAll]
  | cons x xs ih =>
    simp only [List.cons_append, destroyAll]
    cases h : SharedPtr.destroy s x with
    | error e => simp
    | ok s1 => simp [ih]

/-! ## A group of holders over one resource -/

theorem grp_holder (s : State) (v : Int) (n : Nat) (k : Int) (j : Nat) (hj : j < n) :
    (grp s v n k).holders[s.holders.length + j]? =
      some ⟨some s.objs.length, some s.cnts.length⟩ := by
  show (s.holders ++ _)[_]? = _
  rw [getElem?_append_add, List.getElem?_replicate, if_pos hj]

theorem grp_cnt (s : State) (v : Int) (n : Nat) (k : Int) :
    (grp s v n k).cnts[s.cnts.length]? = some ⟨k, false⟩ := by
  simp [grp]

theorem grp_obj (s : State) (v : Int) (n : Nat) (k : Int) :
    (grp s v n k).objs[s.objs.length]? = some ⟨v, false⟩ := by
  simp [grp]

theorem create_eq_grp (s : State) (v : Int) :
    (SharedPtr.create (newObj s v).1 (some (newObj s v).2)).1 = grp s v 1 1 := by
  simp [SharedPtr.create, newObj, grp]

theorem copy_grp (s : State) (v : Int) (n : Nat) (k : Int) (j : Nat) (hj : j < n)
    (hk : k ≠ INT_MAX) :
    SharedPtr.copy (grp s v n k) (s.holders.length + j) = .ok (grp s v (n + 1) (k + 1)) := by
  rw [copy_nonempty (grp_holder s v n k j hj) (grp_cnt s v n k) hk]
  simp [grp, set_append_length, replicate_snoc]

theorem destroy_grp (s : State) (v : Int) (n : Nat) (k : Int) (j : Nat) (hj : j < n)
    (hmin : k ≠ INT_MIN) (hone : k ≠ 1) :
    SharedPtr.destroy (grp s v n k) (s.holders.length + j) = .ok (grp s v n (k - 1)) := by
  rw [SharedPtr.destroy, release_shared (grp_holder s v n k j hj) (grp_cnt s v n k) hmin hone]
  simp [grp, set_append_length]

theorem destroy_grp_last (s : State) (v : Int) (n : Nat) (j : Nat) (hj : j < n) :
    SharedPtr.destroy (grp s v n 1) (s.holders.length + j) = .ok
      { objs := s.objs ++ [⟨v, true⟩],
        cnts := s.cnts ++ [⟨0, true⟩],
        holders := s.holders ++
          (List.replicate n ⟨some s.objs.length, some s.cnts.length⟩).set j ⟨none, none⟩,
        released := s.released ++ [s.objs.length] } := by
  rw [SharedPtr.destroy, release_last (grp_holder s v n 1 j hj) (grp_cnt s v n 1) (grp_obj s v n 1)]
  simp [grp, set_append_length, set_append_add]

theorem copyAll_grp (s : State) (v : Int) (srcs : List Nat) :
    ∀ (n : Nat) (k : Int), k + srcs.length ≤ INT_MAX →
      (∀ i x, srcs[i]? = some x → x < n + i) →
      copyAll (grp s v n k) (srcs.map (s.holders.length + ·)) =
        .ok (grp s v (n + srcs.length) (k + srcs.length)) := by
  induction srcs with
  | nil => intro n k _ _; simp [copyAll]
  | cons x xs ih =>
    intro n k hk hsrc
    have hx : x < n := by simpa using hsrc 0 x (by simp)
    have hk1 : k ≠ INT_MAX := by
      simp only [List.length_cons, Nat.cast_add, Nat.cast_one] at hk
      omega
    simp only [List.map_cons, copyAll, copy_grp s v n k x hx hk1]
    rw [ih (n + 1) (k + 1)]
    · simp only [List.length_cons, Nat.cast_add, Nat.cast_one]
      congr 2 <;> omega
    · simp only [List.length_cons, Nat.cast_add, Nat.cast_one] at hk
      omega
    · intro i y hy
      have := hsrc (i + 1) y (by simpa using hy)
      omega

theorem destroyAll_grp (s : State) (v : Int) (n : Nat) (hs : List Nat) :
    ∀ (k : Int), (hs.length : Int) < k → (∀ h ∈ hs, h < n) →
      destroyAll (grp s v n k) (hs.map (s.holders.length + ·)) =
        .ok (grp s v n (k - hs.length)) := by
  induction hs with
  | nil => intro k _ _; simp [destroyAll]
  | cons x xs ih =>
    intro k hk hmem
    simp only [List.length_cons, Nat.cast_add, Nat.cast_one] at hk
    have hx : x < n := hmem x (by simp)
    have hmin : k ≠ INT_MIN := by simp only [INT_MIN]; omega
    have hone : k ≠ 1 := by omega
    simp only [List.map_cons, destroyAll, destroy_grp s v n k x hx hmin hone]
    rw [ih (k - 1) (by omega) (fun h hh => hmem h (by simp [hh]))]
    simp only [List.length_cons, Nat.cast_add, Nat.cast_one]
    congr 2
    omega

theorem destroyAll_grp_all (s : State) (v : Int) (n : Nat) (front : List Nat) (x : Nat)
    (hfront : ∀ h ∈ front, h < n) (hx : x < n) :
    destroyAll (grp s v n (front.length + 1)) ((front ++ [x]).map (s.holders.length + ·)) = .ok
      { objs := s.objs ++ [⟨v, true⟩],
        cnts := s.cnts ++ [⟨0, true⟩],
        holders := s.holders ++
          (List.replicate n ⟨some s.objs.length, some s.cnts.length⟩).set x ⟨none, none⟩,
        released := s.released ++ [s.objs.length] } := by
  have hd := destroyAll_grp s v n front (front.length + 1) (by omega) hfront
  have hone : ((front.length : Int) + 1 - front.length) = 1 := by omega
  rw [hone] at hd
  rw [List.map_append, destroyAll_append, hd]
  simp only [List.map_cons, List.map_nil, destroyAll]
  rw [destroy_grp_last s v n x hx]

theorem copyAll_replicate_overflow (s : State) (v : Int) (m : Nat)
    (hm : (m : Int) + 1 = INT_MAX) :
    copyAll (grp s v 1 1) (List.replicate (m + 1) s.holders.length) = .error .Overflow := by
  have hsrcs : List.replicate m s.holders.length =
      (List.replicate m 0).map (s.holders.length + ·) := by
    simp
  have hb : (1 : Int) + ((List.replicate m 0).length : Int) ≤ INT_MAX := by
    simp only [List.length_replicate]
    omega
  have hcopy := copyAll_grp s v (List.replicate m 0) 1 1 hb (by
    intro i x hx
    rw [List.getElem?_replicate] at hx
    split at hx
    · cases hx
      omega
    · cases hx)
  simp only [List.length_replicate] at hcopy
  have hcast : (1 : Int) + (m : Int) = INT_MAX := by omega
  rw [← replicate_snoc, copyAll_append, hsrcs, hcopy, hcast]
  simp only [copyAll]
  have hh := grp_holder s v (1 + m) INT_MAX 0 (by omega)
  rw [Nat.add_zero] at hh
  rw [copy_overflow hh (grp_cnt s v (1 + m) INT_MAX)]

/-- C1 (amended): from any state, a `SharedPtr` constructed over a fresh resource and
then copy-constructed `N` times, each time from a holder already in the group, has its
counter at `N + 1` as long as `N + 1` does not exceed `INT_MAX`; running the destructor
once on each of the `N + 1` holders, in any order, releases the resource exactly once:
after any `k ≤ N` of the destructions nothing is released and the counter is
`N + 1 - k`, and the last destruction takes the counter from 1 to 0 and releases. -/
theorem shared_group_released_once (s : State) (v : Int) (N : Nat) (srcs order : List Nat)
    (hN : (N : Int) + 1 ≤ INT_MAX)
    (hlen : srcs.length = N)
    (hsrc : ∀ i x : Nat, srcs[i]? = some x → x ≤ i)
    (hperm : order.Perm (List.range (N + 1))) :
    ∃ sN, copyAll (SharedPtr.create (newObj s v).1 (some (newObj s v).2)).1
              (srcs.map (s.holders.length + ·)) = .ok sN ∧
      sN.holders.length = s.holders.length + (N + 1) ∧
      (∀ j, j ≤ N → sN.holders[s.holders.length + j]? =
          some ⟨some s.objs.length, some s.cnts.length⟩) ∧
      sN.cnts[s.cnts.length]? = some ⟨N + 1, false⟩ ∧
      (∀ k, k ≤ N → ∃ sk,
          destroyAll sN ((order.take k).map (s.holders.length + ·)) = .ok sk ∧
          sk.released = s.released ∧
          sk.objs[s.objs.length]? = some ⟨v, false⟩ ∧
          sk.cnts[s.cnts.length]? = some ⟨N + 1 - k, false⟩) ∧
      ∃ sf, destroyAll sN (order.map (s.holders.length + ·)) = .ok sf ∧
          sf.released = s.released ++ [s.objs.length] ∧
          sf.objs[s.objs.length]? = some ⟨v, true⟩ ∧
          sf.cnts[s.cnts.length]? = some ⟨0, true⟩ := by
  have hlo : order.length = N + 1 := by simpa using hperm.length_eq
  have hmem : ∀ h ∈ order, h < N + 1 := fun h hh => List.mem_range.1 (hperm.mem_iff.1 hh)
  have hb : (1 : Int) + (srcs.length : Int) ≤ INT_MAX := by rw [hlen]; omega
  have hcopy := copyAll_grp s v srcs 1 1 hb
    (fun i x hx => by have := hsrc i x hx; omega)
  rw [hlen] at hcopy
  have hcast : (1 : Int) + (N : Int) = N + 1 := by omega
  rw [hcast, Nat.add_comm 1 N] at hcopy
  refine ⟨grp s v (N + 1) (N + 1), ?_, ?_, ?_, ?_, ?_, ?_⟩
  · rw [create_eq_grp]; exact hcopy
  · simp [grp]
  · intro j hj
    exact grp_holder s v (N + 1) (N + 1) j (by omega)
  · exact grp_cnt s v (N + 1) (N + 1)
  · intro k hk
    have hlk : (order.take k).length = k := by simp [hlo]; omega
    have hd := destroyAll_grp s v (N + 1) (order.take k) (N + 1) (by rw [hlk]; omega)
      (fun h hh => hmem h (List.mem_of_mem_take hh))
    rw [hlk] at hd
    exact ⟨_, hd, rfl, grp_obj s v _ _, grp_cnt s v _ _⟩
  · have hne : order ≠ [] := by
      intro h
      simp [h] at hlo
    obtain ⟨front, x, rfl⟩ : ∃ front x, order = front ++ [x] :=
      ⟨order.dropLast, order.getLast hne, (List.dropLast_append_getLast hne).symm⟩
    have hlf : front.length = N := by simpa using hlo
    have hall := destroyAll_grp_all s v (N + 1) front x
      (fun h hh => hmem h (by simp [hh])) (hmem x (by simp))
    rw [hlf] at hall
    exact ⟨_, hall, rfl, by simp, by simp⟩

/-- C1, witness of `shared_group_released_once`: `p` over a fresh resource, a copy of
`p`, a copy of that copy, destroyed in the order second, third, first. -/
theorem shared_group_released_once_witness :
    ((2 : Nat) : Int) + 1 ≤ INT_MAX ∧ [0, 1].length = 2 ∧
    (∀ i x : Nat, [0, 1][i]? = some x → x ≤ i) ∧
    [1, 2, 0].Perm (List.range (2 + 1)) ∧
    ∃ sN, copyAll (SharedPtr.create (newObj State.init 1).1 (some (newObj State.init 1).2)).1
              ([0, 1].map (State.init.holders.length + ·)) = .ok sN ∧
      sN.holders.length = State.init.holders.length + (2 + 1) ∧
      (∀ j, j ≤ 2 → sN.holders[State.init.holders.length + j]? =
          some ⟨some State.init.objs.length, some State.init.cnts.length⟩) ∧
      sN.cnts[State.init.cnts.length]? = some ⟨(2 : Nat) + 1, false⟩ ∧
      (∀ k : Nat, k ≤ 2 → ∃ sk,
          destroyAll sN (([1, 2, 0].take k).map (State.init.holders.length + ·)) = .ok sk ∧
          sk.released = State.init.released ∧
          sk.objs[State.init.objs.length]? = some ⟨1, false⟩ ∧
          sk.cnts[State.init.cnts.length]? = some ⟨(2 : Nat) + 1 - k, false⟩) ∧
      ∃ sf, destroyAll sN ([1, 2, 0].map (State.init.holders.length + ·)) = .ok sf ∧
          sf.released = State.init.released ++ [State.init.objs.length] ∧
          sf.objs[State.init.objs.length]? = some ⟨1, true⟩ ∧
          sf.cnts[State.init.cnts.length]? = some ⟨0, true⟩ :=
  have h1 : ((2 : Nat) : Int) + 1 ≤ INT_MAX := by decide
  have h2 : [0, 1].length = 2 := rfl
  have h3 : ∀ i x : Nat, [0, 1][i]? = some x → x ≤ i := by
    intro i x h
    rcases i with _ | _ | i <;> simp at h <;> omega
  have h4 : [1, 2, 0].Perm (List.range (2 + 1)) := by decide
  ⟨h1, h2, h3, h4, shared_group_released_once State.init 1 2 [0, 1] [1, 2, 0] h1 h2 h3 h4⟩

/-- C1, counterexample to the claim for every `N`: with `N = 2147483647` the last
copy-construction increments a counter that already holds `INT_MAX`, so the counter
never becomes `N + 1`. -/
theorem shared_count_overflows :
    copyAll (SharedPtr.create (newObj State.init 1).1 (some (newObj State.init 1).2)).1
      (List.replicate 2147483647 0) = .error .Overflow := by
  rw [create_eq_grp]
  exact copyAll_replicate_overflow State.init 1 2147483646 (by decide)

theorem write_grp (s : State) (u v : Int) (n : Nat) (k : Int) (j : Nat) (hj : j < n) :
    SharedPtr.write (grp s u n k) (s.holders.length + j) v = .ok (grp s v n k) := by
  rw [write_live (grp_holder s u n k j hj) (grp_obj s u n k)]
  simp [grp, set_append_length]

theorem read_grp (s : State) (u : Int) (n : Nat) (k : Int) (j : Nat) (hj : j < n) :
    SharedPtr.read (grp s u n k) (s.holders.length + j) = .ok u :=
  read_live (grp_holder s u n k j hj) (grp_obj s u n k)

theorem mainFirstHalf_eq (s : State) (init v : Int) :
    mainFirstHalf s init v = .ok (grp s v 2 1) := by
  have hc := copy_grp s init 1 1 0 (by omega) (by decide)
  have hw := write_grp s init v 2 2 0 (by omega)
  have hd := destroy_grp s v 2 2 0 (by omega) (by decide) (by decide)
  simp only [Nat.add_zero] at hc hw hd
  have hcr := create_eq_grp s init
  simp only [newObj] at hcr
  simp only [mainFirstHalf, newObj, SharedPtr.create] at hcr ⊢
  rw [hcr, hc]
  simp only [Nat.reduceAdd, Int.reduceAdd]
  rw [hw]
  simp only
  rw [hd]
  rfl

/-- C7: from any state, for every initial value and every `v` and `w`: after `p` is
constructed over a fresh resource, `q` is copy-constructed from `p`, `v` is written
through `p` and `p` is destroyed, the resource is not released and reading through `q`
gives `v`; after `w` is then written through `q` and `q` is destroyed, the resource is
released exactly once, the counter has reached 0 and `q` is empty. -/
theorem main_shared_scenario (s : State) (init v w : Int) :
    ∃ s5 s7, mainFirstHalf s init v = .ok s5 ∧
      s5.released = s.released ∧
      s5.objs[s.objs.length]? = some ⟨v, false⟩ ∧
      SharedPtr.read s5 (s.holders.length + 1) = .ok v ∧
      mainSecondHalf s5 (s.holders.length + 1) w = .ok s7 ∧
      s7.released = s.released ++ [s.objs.length] ∧
      s7.objs[s.objs.length]? = some ⟨w, true⟩ ∧
      s7.cnts[s.cnts.length]? = some ⟨0, true⟩ ∧
      s7.holders[s.holders.length + 1]? = some ⟨none, none⟩ := by
  have hw := write_grp s v w 2 1 1 (by omega)
  have hd := destroy_grp_last s w 2 1 (by omega)
  have hsecond : mainSecondHalf (grp s v 2 1) (s.holders.length + 1) w = .ok
      { objs := s.objs ++ [⟨w, true⟩],
        cnts := s.cnts ++ [⟨0, true⟩],
        holders := s.holders ++
          (List.replicate 2 ⟨some s.objs.length, some s.cnts.length⟩).set 1 ⟨none, none⟩,
        released := s.released ++ [s.objs.length] } := by
    simp only [mainSecondHalf]
    rw [hw]
    simp only
    rw [hd]
  refine ⟨grp s v 2 1, _, mainFirstHalf_eq s init v, rfl, grp_obj s v 2 1,
    read_grp s v 2 1 1 (by omega), hsecond, rfl, ?_, ?_, ?_⟩
  · simp
  · simp
  · show (s.holders ++ _)[_]? = _
    rw [getElem?_append_add]
    rfl

/-- C6: for every holder object `h` of every state, `h = h` returns with the state
unchanged: the holder's resource and counter references, every counter value and the
log of released resources are what they were. -/
theorem self_assign_unchanged (s : State) (h : Nat) :
    SharedPtr.assign s h h = .ok s := by
  simp [SharedPtr.assign]

/-- C2, the code at the failing input: after `p` over a fresh resource, `q { p }` and
`p.~SharedPtr()`, the counter holds 1 while two holder objects, `p` and `q`, have a
non-absent `ptr` that refers to the counter's resource. -/
theorem shared_count_below_holders :
    (SharedPtr.create (newObj State.init 1).1 (some 0)).1 =
      ⟨[⟨1, false⟩], [⟨1, false⟩], [⟨some 0, some 0⟩], []⟩ ∧
    SharedPtr.copy ⟨[⟨1, false⟩], [⟨1, false⟩], [⟨some 0, some 0⟩], []⟩ 0 =
      .ok ⟨[⟨1, false⟩], [⟨2, false⟩], [⟨some 0, some 0⟩, ⟨some 0, some 0⟩], []⟩ ∧
    SharedPtr.destroy
        ⟨[⟨1, false⟩], [⟨2, false⟩], [⟨some 0, some 0⟩, ⟨some 0, some 0⟩], []⟩ 0 =
      .ok ⟨[⟨1, false⟩], [⟨1, false⟩], [⟨some 0, some 0⟩, ⟨some 0, some 0⟩], []⟩ ∧
    holdersOf ⟨[⟨1, false⟩], [⟨1, false⟩], [⟨some 0, some 0⟩, ⟨some 0, some 0⟩], []⟩ 0 = 2 := by
  decide

/-- C3, the code at the failing input: with `p` and `q` sharing a resource, the first
`p.~SharedPtr()` takes the counter from 2 to 1 and leaves `p` non-empty, and the second
`p.~SharedPtr()` takes it to 0 and releases the resource and the counter although `q`
still refers to them; the destructor sequence of `main.cpp` (explicit `p`, explicit `q`,
then `q` and `p` at scope exit) ends in a decrement of the freed counter. -/
theorem shared_second_destroy_not_noop :
    copyAll (SharedPtr.create (newObj State.init 1).1 (some 0)).1 [0] =
      .ok ⟨[⟨1, false⟩], [⟨2, false⟩], [⟨some 0, some 0⟩, ⟨some 0, some 0⟩], []⟩ ∧
    SharedPtr.destroy
        ⟨[⟨1, false⟩], [⟨2, false⟩], [⟨some 0, some 0⟩, ⟨some 0, some 0⟩], []⟩ 0 =
      .ok ⟨[⟨1, false⟩], [⟨1, false⟩], [⟨some 0, some 0⟩, ⟨some 0, some 0⟩], []⟩ ∧
    SharedPtr.destroy
        ⟨[⟨1, false⟩], [⟨1, false⟩], [⟨some 0, some 0⟩, ⟨some 0, some 0⟩], []⟩ 0 =
      .ok ⟨[⟨1, true⟩], [⟨0, true⟩], [⟨none, none⟩, ⟨some 0, some 0⟩], [0]⟩ ∧
    destroyAll ⟨[⟨1, false⟩], [⟨2, false⟩], [⟨some 0, some 0⟩, ⟨some 0, some 0⟩], []⟩
        [0, 1, 1, 0] = .error .InvalidAccess := by
  decide

theorem shared_deref_null_iff (s : State) (i : Nat) (h : SharedPtr)
    (hh : s.holders[i]? = some h) :
    SharedPtr.deref s i = .error .NullDereference ↔ h.ptr = none := by
  obtain ⟨ptr, rc⟩ := h
  unfold SharedPtr.deref
  rw [hh]
  cases ptr with
  | none => simp
  | some p =>
    simp only []
    cases s.objs[p]? with
    | none => simp
    | some cell => cases hf : cell.freed <;> simp [hf]

/-- C8, the code at the failing input: after `p` and `q` share a resource and both are
destroyed once, `p` first, the `ptr` of `p` is still non-absent, the resource it refers
to is released, and `*p` is an access to freed storage. -/
theorem shared_present_but_released :
    copyAll (SharedPtr.create (newObj State.init 1).1 (some 0)).1 [0] =
      .ok ⟨[⟨1, false⟩], [⟨2, false⟩], [⟨some 0, some 0⟩, ⟨some 0, some 0⟩], []⟩ ∧
    destroyAll ⟨[⟨1, false⟩], [⟨2, false⟩], [⟨some 0, some 0⟩, ⟨some 0, some 0⟩], []⟩ [0, 1] =
      .ok ⟨[⟨1, true⟩], [⟨0, true⟩], [⟨some 0, some 0⟩, ⟨none, none⟩], [0]⟩ ∧
    SharedPtr.arrow ⟨[⟨1, true⟩], [⟨0, true⟩], [⟨some 0, some 0⟩, ⟨none, none⟩], [0]⟩ 0 =
      .ok (some 0) ∧
    SharedPtr.deref ⟨[⟨1, true⟩], [⟨0, true⟩], [⟨some 0, some 0⟩, ⟨none, none⟩], [0]⟩ 0 =
      .error .InvalidAccess := by
  decide

theorem filter_snoc_length (l : List SharedPtr) (g : SharedPtr) (r : Nat) :
    ((l ++ [g]).filter (fun h => h.ptr = some r)).length =
      (l.filter (fun h => h.ptr = some r)).length + (if g.ptr = some r then 1 else 0) := by
  simp only [List.filter_append, List.length_append, List.filter_cons, List.filter_nil]
  by_cases hp : g.ptr = some r <;> simp [hp]

theorem counted_nonempty {s : State} (hinv : s.counted) {g : SharedPtr} (hg : g ∈ s.holders)
    {r : Nat} (hr : g.ptr = some r) :
    ∃ c, g.ref_cnt = some c ∧ r < s.objs.length ∧ c < s.cnts.length ∧
      s.cnts[c]? = some ⟨(holdersOf s r : Int), false⟩ ∧
      s.objs[r]?.map Cell.freed = some false ∧
      ∀ g2 ∈ s.holders, g2.ptr ≠ none → (g2.ptr = some r ↔ g2.ref_cnt = some c) := by
  obtain ⟨p, rc⟩ := g
  simp only at hr
  subst hr
  cases rc with
  | none => exact absurd (hinv _ hg) (by simp [holderCounted])
  | some c =>
    obtain ⟨h1, h2, h3⟩ : holderCounted s ⟨some r, some c⟩ := hinv _ hg
    refine ⟨c, rfl, ?_, (List.getElem?_eq_some.1 h1).1, h1, h2, h3⟩
    cases hobj : s.objs[r]? with
    | none => simp [hobj] at h2
    | some cell => exact (List.getElem?_eq_some.1 hobj).1

theorem counted_copy {s : State} (hinv : s.counted) {o r c : Nat}
    (ho : s.holders[o]? = some ⟨some r, some c⟩)
    (hmax : (holdersOf s r : Int) ≠ INT_MAX) :
    ∃ s1, SharedPtr.copy s o = .ok s1 ∧ s1.counted := by
  have hmem := List.getElem?_mem ho
  obtain ⟨c0, hc0, _, hcl, hcnt, _, hcorr⟩ := counted_nonempty hinv hmem (r := r) rfl
  simp only [Option.some.injEq] at hc0
  subst hc0
  refine ⟨_, copy_nonempty ho hcnt hmax, ?_⟩
  have hold : ∀ h ∈ s.holders, holderCounted
      { s with cnts := s.cnts.set c ⟨(holdersOf s r : Int) + 1, false⟩,
               holders := s.holders ++ [⟨some r, some c⟩] } h := by
    intro h hh
    obtain ⟨p2, rc2⟩ := h
    cases p2 with
    | none => simp [holderCounted]
    | some r2 =>
      obtain ⟨c2, hc2, _, _, hcnt2, hlive2, hcorr2⟩ := counted_nonempty hinv hh (r := r2) rfl
      simp only at hc2
      subst hc2
      have key : r = r2 ↔ c = c2 := by
        have := hcorr2 _ hmem (by simp)
        simpa using this
      refine ⟨?_, hlive2, ?_⟩
      · simp only [holdersOf]
        rw [filter_snoc_length]
        by_cases hr : r = r2
        · have hc : c = c2 := key.1 hr
          subst hr
          subst hc
          rw [List.getElem?_set_self hcl]
          simp
        · have hc : c ≠ c2 := fun h => hr (key.2 h)
          have hr2 : ¬ (some r = some r2) := by simpa using hr
          rw [List.getElem?_set_ne hc, if_neg hr2]
          exact hcnt2
      · intro g hg hne
        rcases List.mem_append.1 hg with hg | hg
        · exact hcorr2 g hg hne
        · rw [List.mem_singleton.1 hg]
          simpa using key
  intro h hh
  rcases List.mem_append.1 hh with hh | hh
  · exact hold h hh
  · rw [List.mem_singleton.1 hh]
    exact hold _ hmem

theorem counted_create_empty {s : State} (hinv : s.counted) :
    (SharedPtr.create s none).1.counted := by
  intro h hh
  simp only [SharedPtr.create] at hh
  rcases List.mem_append.1 hh with hh | hh
  · obtain ⟨p2, rc2⟩ := h
    cases p2 with
    | none => simp [holderCounted]
    | some r2 =>
      obtain ⟨c2, hc2, _, hcl2, hcnt2, hlive2, hcorr2⟩ :=
        counted_nonempty hinv hh (r := r2) rfl
      simp only at hc2
      subst hc2
      refine ⟨?_, hlive2, ?_⟩
      · simp only [SharedPtr.create, holdersOf]
        rw [filter_snoc_length, List.getElem?_append_left hcl2]
        simpa [holdersOf] using hcnt2
      · intro g hg hne
        simp only [SharedPtr.create] at hg
        rcases List.mem_append.1 hg with hg | hg
        · exact hcorr2 g hg hne
        · rw [List.mem_singleton.1 hg] at hne
          exact absurd rfl hne
  · rw [List.mem_singleton.1 hh]
    simp [holderCounted]

theorem counted_create_fresh {s : State} (hinv : s.counted) (v : Int) :
    (SharedPtr.create (newObj s v).1 (some (newObj s v).2)).1.counted := by
  have hnone : holdersOf s s.objs.length = 0 := by
    simp only [holdersOf, List.length_eq_zero, List.filter_eq_nil_iff]
    intro g hg hp
    simp only [decide_eq_true_eq] at hp
    obtain ⟨_, _, hlt, _⟩ := counted_nonempty hinv hg hp
    omega
  intro h hh
  simp only [SharedPtr.create, newObj] at hh
  rcases List.mem_append.1 hh with hh | hh
  · obtain ⟨p2, rc2⟩ := h
    cases p2 with
    | none => simp [holderCounted]
    | some r2 =>
      obtain ⟨c2, hc2, hrl2, hcl2, hcnt2, hlive2, hcorr2⟩ :=
        counted_nonempty hinv hh (r := r2) rfl
      simp only at hc2
      subst hc2
      have hr : ¬ (some s.objs.length = some r2) := by
        simp only [Option.some.injEq]
        omega
      refine ⟨?_, ?_, ?_⟩
      · simp only [SharedPtr.create, newObj, holdersOf]
        rw [filter_snoc_length, List.getElem?_append_left hcl2, if_neg hr]
        exact hcnt2
      · show Option.map Cell.freed (s.objs ++ _)[r2]? = _
        rw [List.getElem?_append_left hrl2]
        exact hlive2
      · intro g hg hne
        simp only [SharedPtr.create, newObj] at hg
        rcases List.mem_append.1 hg with hg | hg
        · exact hcorr2 g hg hne
        · rw [List.mem_singleton.1 hg]
          simp only [Option.some.injEq]
          constructor <;> intro h <;> omega
  · rw [List.mem_singleton.1 hh]
    refine ⟨?_, ?_, ?_⟩
    · simp only [SharedPtr.create, newObj, holdersOf]
      rw [filter_snoc_length]
      have h0 : (s.holders.filter (fun h => h.ptr = some s.objs.length)).length = 0 := hnone
      rw [h0, getElem?_append_length]
      simp
    · show Option.map Cell.freed (s.objs ++ _)[s.objs.length]? = _
      rw [getElem?_append_length]
      rfl
    · intro g hg hne
      simp only [SharedPtr.create, newObj] at hg
      rcases List.mem_append.1 hg with hg | hg
      · obtain ⟨p2, rc2⟩ := g
        cases p2 with
        | none => exact absurd rfl hne
        | some r2 =>
          obtain ⟨c2, hc2, hrl2, hcl2, _⟩ := counted_nonempty hinv hg (r := r2) rfl
          simp only at hc2
          subst hc2
          simp only [Option.some.injEq]
          constructor <;> intro h <;> omega
      · rw [List.mem_singleton.1 hg]
        simp

theorem init_counted : State.init.counted := by
  decide

theorem stale_holder_state_not_counted :
    ¬ (⟨[⟨1, false⟩, ⟨7, false⟩], [⟨1, false⟩, ⟨1, false⟩],
        [⟨some 0, some 0⟩, ⟨some 0, some 0⟩, ⟨some 0, some 0⟩, ⟨some 1, some 1⟩], []⟩ :
        State).counted := by
  decide

theorem getElem?_snoc_some {α : Type} {l : List α} {x y : α} {i : Nat}
    (h : (l ++ [x])[i]? = some y) : l[i]? = some y ∨ (i = l.length ∧ x = y) := by
  by_cases hi : i < l.length
  · rw [List.getElem?_append_left hi] at h
    exact Or.inl h
  · rw [List.getElem?_append_right (by omega)] at h
    by_cases h0 : i - l.length = 0
    · rw [h0] at h
      simp only [List.getElem?_cons_zero, Option.some.injEq] at h
      exact Or.inr ⟨by omega, h⟩
    · obtain ⟨m, hm⟩ : ∃ m, i - l.length = m + 1 := ⟨i - l.length - 1, by omega⟩
      rw [hm] at h
      simp at h

theorem deleteObj_holders {s s1 : UState} {ptr : Option Nat}
    (h : UState.deleteObj s ptr = .ok s1) : s1.holders = s.holders := by
  unfold UState.deleteObj at h
  split at h
  · cases h
    rfl
  · split at h
    · cases h
    · split at h
      · cases h
      · cases h
        rfl

theorem write_holders {s s1 : UState} {this : Nat} {v : Int}
    (h : UniquePtr.write s this v = .ok s1) : s1.holders = s.holders := by
  unfold UniquePtr.write at h
  split at h
  · cases h
  · cases h
    rfl

theorem step_holders {s s1 : UState} {op : UOp} (h : UOp.step s op = .ok s1)
    {i p : Nat} (hi : s1.holders[i]? = some ⟨some p⟩) :
    s.holders[i]? = some ⟨some p⟩ ∨ (op = .create (some p) ∧ i = s.holders.length) := by
  cases op with
  | alloc v =>
    simp only [UOp.step, UState.newObj, Except.ok.injEq] at h
    subst h
    exact Or.inl hi
  | createEmpty =>
    simp only [UOp.step, UniquePtr.createEmpty, Except.ok.injEq] at h
    subst h
    rcases getElem?_snoc_some hi with h1 | ⟨_, h2⟩
    · exact Or.inl h1
    · cases h2
  | create ptr =>
    simp only [UOp.step, UniquePtr.create, Except.ok.injEq] at h
    subst h
    rcases getElem?_snoc_some hi with h1 | ⟨h2, h3⟩
    · exact Or.inl h1
    · cases h3
      exact Or.inr ⟨rfl, h2⟩
  | read this =>
    simp only [UOp.step] at h
    split at h
    · cases h
    · cases h
      exact Or.inl hi
  | write this v =>
    simp only [UOp.step] at h
    rw [write_holders h] at hi
    exact Or.inl hi
  | destroy this =>
    simp only [UOp.step, UniquePtr.destroy] at h
    split at h
    · cases h
    · split at h
      · cases h
      · rename_i s2 hdel
        cases h
        simp only [List.getElem?_set] at hi
        split at hi
        · split at hi <;> cases hi
        · rw [deleteObj_holders hdel] at hi
          exact Or.inl hi

theorem runOps_exclusive (ops : List UOp) :
    ∀ (s s1 : UState) (P : List Nat),
      (∀ i j p : Nat, s.holders[i]? = some ⟨some p⟩ → s.holders[j]? = some ⟨some p⟩ →
        i = j) →
      (∀ i p : Nat, s.holders[i]? = some ⟨some p⟩ → p ∈ P) →
      (passedToCreate ops).Nodup → (∀ p ∈ passedToCreate ops, p ∉ P) →
      runOps s ops = .ok s1 →
      ∀ i j p : Nat, s1.holders[i]? = some ⟨some p⟩ → s1.holders[j]? = some ⟨some p⟩ →
        i = j := by
  induction ops with
  | nil =>
    intro s s1 P h1 _ _ _ hrun
    simp only [runOps, Except.ok.injEq] at hrun
    subst hrun
    exact h1
  | cons op ops ih =>
    intro s s1 P h1 h2 hnd hfresh hrun
    simp only [runOps] at hrun
    split at hrun
    · cases hrun
    · rename_i s2 hstep
      have hsub : ∀ q ∈ passedToCreate ops, q ∈ passedToCreate (op :: ops) := by
        intro q hq
        unfold passedToCreate
        split
        · cases ‹op :: ops = []›
        · rename_i heq
          cases heq
          exact List.mem_cons_of_mem _ hq
        · rename_i heq
          cases heq
          exact hq
      have hnd2 : (passedToCreate ops).Nodup := by
        unfold passedToCreate at hnd
        split at hnd
        · cases ‹op :: ops = []›
        · rename_i heq
          cases heq
          exact (List.nodup_cons.1 hnd).2
        · rename_i heq
          cases heq
          exact hnd
      have hnew : ∀ p, op = .create (some p) → p ∉ P ∧ p ∉ passedToCreate ops := by
        intro p hp
        subst hp
        simp only [passedToCreate, List.nodup_cons] at hnd
        exact ⟨hfresh p (by simp [passedToCreate]), hnd.1⟩
      refine ih s2 s1 (passedToCreate [op] ++ P) ?_ ?_ hnd2 ?_ hrun
      · intro i j p hi hj
        rcases step_holders hstep hi with hi1 | ⟨hop, hi2⟩
        · rcases step_holders hstep hj with hj1 | ⟨hop, hj2⟩
          · exact h1 i j p hi1 hj1
          · exact absurd (h2 i p hi1) (hnew p hop).1
        · rcases step_holders hstep hj with hj1 | ⟨_, hj2⟩
          · exact absurd (h2 j p hj1) (hnew p hop).1
          · rw [hi2, hj2]
      · intro i p hi
        rcases step_holders hstep hi with hi1 | ⟨hop, _⟩
        · exact List.mem_append_right _ (h2 i p hi1)
        · subst hop
          simp [passedToCreate]
      · intro q hq hmem
        rcases List.mem_append.1 hmem with hm | hm
        · cases op with
          | create ptr =>
            cases ptr with
            | none => simp [passedToCreate] at hm
            | some p =>
              simp only [passedToCreate, List.mem_singleton] at hm
              subst hm
              exact (hnew q rfl).2 hq
          | alloc v => simp [passedToCreate] at hm
          | createEmpty => simp [passedToCreate] at hm
          | read this => simp [passedToCreate] at hm
          | write this v => simp [passedToCreate] at hm
          | destroy this => simp [passedToCreate] at hm
        · exact hfresh q (hsub q hq) hm

theorem unique_deref_null_iff (s : UState) (i : Nat) (h : UniquePtr)
    (hh : s.holders[i]? = some h) :
    UniquePtr.deref s i = .error .NullDereference ↔ h.ptr = none := by
  obtain ⟨ptr⟩ := h
  unfold UniquePtr.deref
  rw [hh]
  cases ptr with
  | none => simp
  | some p =>
    simp only []
    cases s.objs[p]? with
    | none => simp
    | some cell => cases hf : cell.freed <;> simp [hf]

/-- C9: when no resource is passed to the constructor `UniquePtr(T* ptr)` more than
once, in every state reached from no holders by allocation, the two constructors,
reading and writing through a holder and the destructor, two distinct `UniquePtr`
objects never refer to the same resource.  (`UOp` has no copy step: the copy
constructor and copy assignment are deleted.) -/
theorem unique_never_aliased (ops : List UOp) (s : UState)
    (hpass : (passedToCreate ops).Nodup)
    (hrun : runOps UState.init ops = .ok s) :
    ∀ i j p : Nat, i ≠ j → s.holders[i]? = some ⟨some p⟩ →
      s.holders[j]? ≠ some ⟨some p⟩ := by
  intro i j p hij hi hj
  refine hij (runOps_exclusive ops UState.init s [] ?_ ?_ hpass ?_ hrun i j p hi hj)
  · intro i j p h
    simp [UState.init] at h
  · intro i p h
    simp [UState.init] at h
  · intro p _
    simp

/-- C9, witness of `unique_never_aliased`: two resources, each passed to one
constructor call, an empty holder, a write and a destruction. -/
theorem unique_never_aliased_witness :
    (passedToCreate [.alloc 1, .create (some 0), .alloc 2, .createEmpty, .create (some 1),
      .write 0 5, .read 2, .destroy 0]).Nodup ∧
    runOps UState.init [.alloc 1, .create (some 0), .alloc 2, .createEmpty,
      .create (some 1), .write 0 5, .read 2, .destroy 0] =
      .ok ⟨[⟨5, true⟩, ⟨2, false⟩], [⟨none⟩, ⟨none⟩, ⟨some 1⟩], [0]⟩ ∧
    ∀ i j p : Nat, i ≠ j →
      (⟨[⟨5, true⟩, ⟨2, false⟩], [⟨none⟩, ⟨none⟩, ⟨some 1⟩], [0]⟩ : UState).holders[i]? =
        some ⟨some p⟩ →
      (⟨[⟨5, true⟩, ⟨2, false⟩], [⟨none⟩, ⟨none⟩, ⟨some 1⟩], [0]⟩ : UState).holders[j]? ≠
        some ⟨some p⟩ :=
  ⟨by decide, by decide,
    unique_never_aliased [.alloc 1, .create (some 0), .alloc 2, .createEmpty,
      .create (some 1), .write 0 5, .read 2, .destroy 0]
      ⟨[⟨5, true⟩, ⟨2, false⟩], [⟨none⟩, ⟨none⟩, ⟨some 1⟩], [0]⟩ (by decide) (by decide)⟩

end MemorySafety

namespace FTemplates

/-! ## `convert<int, std::string>` -/

theorem digitChar_natCast (n : Nat) : digitChar (n : Int) = Char.ofNat (48 + n % 10) := by
  unfold digitChar
  have h : (48 + (n : Int).tmod 10).toNat = 48 + n % 10 := by
    have h1 : (n : Int).tmod 10 = ((n % 10 : Nat) : Int) := (Int.ofNat_tmod n 10).symm
    rw [h1]
    omega
  rw [h]

theorem digit_isDigit (d : Nat) (h : d < 10) : (Char.ofNat (48 + d)).isDigit = true := by
  interval_cases d <;> rfl

theorem digit_toNat (d : Nat) (h : d < 10) : (Char.ofNat (48 + d)).toNat - 48 = d := by
  interval_cases d <;> rfl

theorem digit_zero (d : Nat) (h : d < 10) (hz : Char.ofNat (48 + d) = '0') : d = 0 := by
  interval_cases d <;> first | rfl | (exact absurd hz (by decide))

theorem decimalValue_snoc (t : List Char) (c : Char) :
    decimalValue (t ++ [c]) = decimalValue t * 10 + (c.toNat - 48) := by
  simp [decimalValue, List.foldl_append]

theorem convertLoop_natCast (n : Nat) :
    ∀ (fuel : Nat) (acc : List Char), n < fuel →
      ∃ t, convertLoop fuel (n : Int) acc = some (t ++ acc) ∧ t ≠ [] ∧
        (∀ c ∈ t, c.isDigit = true) ∧ (t.head? = some '0' → n = 0) ∧
        (n = 0 → t = ['0']) ∧ decimalValue t = n := by
  induction n using Nat.strong_induction_on with
  | _ n ih =>
    intro fuel acc hfuel
    obtain ⟨f, rfl⟩ : ∃ f, fuel = f + 1 := ⟨fuel - 1, by omega⟩
    have hdiv : (n : Int).tdiv 10 = ((n / 10 : Nat) : Int) := (Int.ofNat_tdiv n 10).symm
    have hlt : n % 10 < 10 := Nat.mod_lt _ (by decide)
    simp only [convertLoop, hdiv, digitChar_natCast]
    by_cases hbig : 10 ≤ n
    · have hpos : ((n / 10 : Nat) : Int) > 0 := by
        have : 0 < n / 10 := Nat.div_pos hbig (by decide)
        omega
      rw [if_pos hpos]
      obtain ⟨t, ht, hne, hdig, hhead, _, hval⟩ :=
        ih (n / 10) (by omega) f (Char.ofNat (48 + n % 10) :: acc) (by omega)
      refine ⟨t ++ [Char.ofNat (48 + n % 10)], ?_, ?_, ?_, ?_, ?_, ?_⟩
      · rw [ht]; simp
      · simp
      · intro c hc
        rcases List.mem_append.1 hc with h | h
        · exact hdig c h
        · rw [List.mem_singleton.1 h]
          exact digit_isDigit _ hlt
      · intro hh
        have h0 : t.head? = some '0' := by
          cases t with
          | nil => exact absurd rfl hne
          | cons a t => simpa using hh
        have := hhead h0
        omega
      · intro h0
        omega
      · rw [decimalValue_snoc, hval, digit_toNat _ hlt]
        omega
    · have hnp : ¬ ((n / 10 : Nat) : Int) > 0 := by
        have : n / 10 = 0 := Nat.div_eq_of_lt (by omega)
        omega
      rw [if_neg hnp]
      have hmod : n % 10 = n := Nat.mod_eq_of_lt (by omega)
      rw [hmod]
      refine ⟨[Char.ofNat (48 + n)], rfl, by simp, ?_, ?_, ?_, ?_⟩
      · intro c hc
        rw [List.mem_singleton.1 hc]
        exact digit_isDigit _ (by omega)
      · intro hh
        simp only [List.head?_cons, Option.some.injEq] at hh
        exact digit_zero n (by omega) hh
      · intro h0
        subst h0
        rfl
      · have := decimalValue_snoc [] (Char.ofNat (48 + n))
        simp only [List.nil_append] at this
        rw [this, digit_toNat _ (by omega)]
        simp [decimalValue]

/-- C10: for every non-negative `x`, `convert<int, std::string>(x)` returns, and the
string it returns is non-empty, consists of the characters `0` to `9`, starts with `0`
only when `x = 0`, is `"0"` when `x = 0`, and read back as a decimal number is `x`. -/
theorem convert_nonneg (x : Int) (hx : 0 ≤ x) :
    ∃ s : String, convert x = some s ∧ s.data ≠ [] ∧
      (∀ c ∈ s.data, c.isDigit = true) ∧
      (s.data.head? = some '0' → x = 0) ∧ (x = 0 → s = "0") ∧
      (decimalValue s.data : Int) = x := by
  obtain ⟨n, rfl⟩ := Int.eq_ofNat_of_zero_le hx
  obtain ⟨t, ht, hne, hdig, hhead, hzero, hval⟩ :=
    convertLoop_natCast n (n + 1) [] (by omega)
  refine ⟨String.mk t, ?_, hne, hdig, ?_, ?_, ?_⟩
  · simp [convert, ht]
  · intro h
    rw [hhead h]
    rfl
  · intro h
    have hn : n = 0 := by omega
    rw [hzero hn]
  · show ((decimalValue t : Nat) : Int) = n
    rw [hval]
/-- C10, witness of `convert_nonneg` at the argument of `main`, 3452114. -/
theorem convert_nonneg_witness :
    (0 : Int) ≤ 3452114 ∧
    ∃ s : String, convert 3452114 = some s ∧ s.data ≠ [] ∧
      (∀ c ∈ s.data, c.isDigit = true) ∧
      (s.data.head? = some '0' → (3452114 : Int) = 0) ∧
      ((3452114 : Int) = 0 → s = "0") ∧
      (decimalValue s.data : Int) = 3452114 :=
  ⟨by decide, convert_nonneg 3452114 (by decide)⟩

/-- The call of `main`: `convert<int, string>(3452114)` is `"3452114"`. -/
theorem convert_main : convert 3452114 = some "3452114" := by
  decide

end FTemplates
